import Mathlib

/-
Verification of the spreadsheet server core (src/src/lib.rs).

The Rust code is shallowly embedded as follows:
* `HashMap<String, _>` becomes an association list `List (String × _)` with
  first-match lookup (`map_get`) and replace-or-append insertion (`insertPair`);
  hash order is modelled by list order.
* `HashSet<String>` (the visited set) becomes a `List String` with membership,
  cons-insertion and `List.erase` removal; the code only inserts names that are
  not present, so the list never holds duplicates.
* The external collaborators from rsheet_lib (the formula runtime
  `CommandRunner::find_variables` / `CommandRunner::run` and the coordinate
  conversions `column_name_to_number` / `column_number_to_name`) are opaque
  parameters, bundled in `Externals`; the spec treats them as external
  contracts, and no claim depends on their internals.
* Code that can panic (the `.unwrap()` calls on `parse::<u32>()`) is embedded
  with `Option`: `none` models an aborted (panicking) evaluation.
* The unbounded Rust recursion of `calculate_cell_value` is embedded with an
  explicit fuel argument that decreases at every recursive resolution step;
  `none` on fuel exhaustion.  All stated properties are fuel-polymorphic.
* Rust `u32` values (rows and column numbers) are `Nat`; the only arithmetic
  performed on them is inclusive-range iteration `a..=b`, which cannot
  overflow, and `parse::<u32>` bounds its result below 2^32 (`parseU32`).
* Character classification (`is_alphabetic`, `is_whitespace`) is modelled with
  the ASCII classifiers `Char.isAlpha` / `Char.isWhitespace`; all protocol
  keywords and cell names in the source are ASCII.
-/

namespace Spreadsheet

/-- Values stored per cell, after rsheet_lib's `CellValue` as used by the
source (`None`, `Int`, `String`, `Error`); the spec's empty / scalar / error. -/
inductive CellValue where
  | none : CellValue
  | int : Int → CellValue
  | str : String → CellValue
  | error : String → CellValue
deriving DecidableEq

/-- Variable bindings handed to the formula runtime, after rsheet_lib's
`CellArgument`: scalar, 1-D range, or 2-D range. -/
inductive CellArgument where
  | Value : CellValue → CellArgument
  | Vector : List CellValue → CellArgument
  | Matrix : List (List CellValue) → CellArgument
deriving DecidableEq

/-- Wire replies, after rsheet_lib's `Reply`: a value reply or an error. -/
inductive Reply where
  | Value : String → CellValue → Reply
  | Error : String → Reply
deriving DecidableEq

/-- The external collaborators of the core (formula runtime and coordinate
mapping), passed as opaque functions exactly as the spec's interface
contracts describe them. -/
structure Externals where
  findVariables : String → List String
  runFormula : String → List (String × CellArgument) → CellValue
  columnNameToNumber : String → Nat
  columnNumberToName : Nat → String

/-- First-match lookup in an association list; models `HashMap::get` on the
entry list. -/
def map_get {α : Type} (k : String) : List (String × α) → Option α
  | [] => none
  | (k', v) :: rest => if k' = k then some v else map_get k rest

/-- Replace-or-append insertion; models `HashMap::insert` on the entry list. -/
def insertPair {α : Type} (k : String) (v : α) : List (String × α) → List (String × α)
  | [] => [(k, v)]
  | (k', v') :: rest => if k' = k then (k, v) :: rest else (k', v') :: insertPair k v rest

/-- HashSet-style insertion on the visited list: add the name if absent. -/
def hsInsert (x : String) (s : List String) : List String :=
  if x ∈ s then s else x :: s

/-- HashSet-style removal on the visited list. -/
def hsRemove (x : String) (s : List String) : List String :=
  s.erase x

/-- Decides whether `needle` occurs at the head of `hay`. -/
def has_seq_at_head : List Char → List Char → Bool
  | [], _ => true
  | _ :: _, [] => false
  | n :: ns, h :: hs => n == h && has_seq_at_head ns hs

/-- Decides whether `needle` occurs contiguously anywhere in `hay`; models
Rust's `str::contains` for a literal pattern. -/
def has_sub_seq (needle : List Char) : List Char → Bool
  | [] => needle.isEmpty
  | h :: hs => has_seq_at_head needle (h :: hs) || has_sub_seq needle hs

/-- Splits at every occurrence of `sep`; models Rust's `str::split(sep)`. -/
def split_char (sep : Char) : List Char → List (List Char)
  | [] => [[]]
  | c :: rest =>
    match split_char sep rest with
    | [] => [[]]
    | g :: gs => if c == sep then [] :: g :: gs else (c :: g) :: gs

/-- Models Rust's `str::parse::<u32>()`: an optional leading plus sign, then
one or more decimal digits, value below 2^32; `none` is the `Err` case (on
which the source calls `.unwrap()` and panics). -/
def parseU32 (cs0 : List Char) : Option Nat :=
  let cs := match cs0 with
    | '+' :: rest => rest
    | _ => cs0
  if cs.isEmpty then none
  else if cs.all Char.isDigit then
    let v := cs.foldl (fun acc c => acc * 10 + (c.toNat - 48)) 0
    if v < 4294967296 then some v else none
  else none

/-- Models Rust's `str::trim`. -/
def trim_ws (s : String) : String :=
  String.mk (((s.toList.dropWhile Char.isWhitespace).reverse.dropWhile
    Char.isWhitespace).reverse)

/-- Splits a character list at the first space, if any. -/
def break_space : List Char → List Char × Option (List Char)
  | [] => ([], none)
  | c :: rest =>
    if c == ' ' then ([], some rest)
    else
      let r := break_space rest
      (c :: r.1, r.2)

/-- Models Rust's `splitn(2, ' ')`: the text before the first space, and the
remainder after it when a space exists. -/
def splitn2 (s : String) : String × Option String :=
  match break_space s.toList with
  | (a, none) => (String.mk a, none)
  | (a, some b) => (String.mk a, some (String.mk b))

def sum_chars : List Char := ['s', 'u', 'm']

def sleep_chars : List Char := ['s', 'l', 'e', 'e', 'p']

/-- The source's range-name test (lib.rs lines 200-201): the variable name is
treated as a range when it contains an underscore and
`!contains("sum") || !contains("sleep")`. -/
def is_range_name (var_name : String) : Bool :=
  var_name.toList.contains '_' &&
    (!(has_sub_seq sum_chars var_name.toList) || !(has_sub_seq sleep_chars var_name.toList))

/-- The claim's reading of the same condition: contains an underscore and does
not contain both the substring "sum" and the substring "sleep". -/
def is_range_name_spec (var_name : String) : Bool :=
  var_name.toList.contains '_' &&
    !(has_sub_seq sum_chars var_name.toList && has_sub_seq sleep_chars var_name.toList)

/-- `get_cell_value` (lib.rs lines 185-188): format the cell name from the
column name and row number and look it up in the temporary value map,
defaulting to the empty value. -/
def get_cell_value (ext : Externals) (cells : List (String × CellValue))
    (col row : Nat) : CellValue :=
  (map_get (ext.columnNumberToName col ++ toString row) cells).getD CellValue.none

/-- Rust's inclusive range `a..=b` as a list (empty when `b < a`). -/
def rangeIncl (a b : Nat) : List Nat :=
  List.range' a (b + 1 - a)

/-- `get_vector_value` (lib.rs lines 151-167): when the columns agree, walk the
rows of that column; otherwise walk the columns at the starting row. -/
def get_vector_value (ext : Externals) (cells : List (String × CellValue))
    (col_start row_start col_end row_end : Nat) : List CellValue :=
  if col_start = col_end then
    (rangeIncl row_start row_end).map (fun row => get_cell_value ext cells col_start row)
  else
    (rangeIncl col_start col_end).map (fun col => get_cell_value ext cells col row_start)

/-- `get_matrix_value` (lib.rs lines 169-183): rows outer, columns inner, both
inclusive. -/
def get_matrix_value (ext : Externals) (cells : List (String × CellValue))
    (col_start row_start col_end row_end : Nat) : List (List CellValue) :=
  (rangeIncl row_start row_end).map (fun row =>
    (rangeIncl col_start col_end).map (fun col => get_cell_value ext cells col row))

/-- The vector/matrix dispatch of `calculate_variables` (lib.rs lines
225-231): a 1-D binding when the endpoints share a column or share a row,
otherwise a 2-D binding. -/
def range_binding (ext : Externals) (cells : List (String × CellValue))
    (col_start row_start col_end row_end : Nat) : CellArgument :=
  if col_start = col_end ∨ row_start = row_end then
    CellArgument.Vector (get_vector_value ext cells col_start row_start col_end row_end)
  else
    CellArgument.Matrix (get_matrix_value ext cells col_start row_start col_end row_end)

/-- The temporary value map of the range branch (lib.rs lines 216-224): every
cell of the formula map is evaluated in iteration order, threading the visited
set through the calls exactly as the `&mut` reference does. -/
def eval_all_cells (eval : String → List String → Option (CellValue × List String)) :
    List (String × String) → List String → Option (List (String × CellValue) × List String)
  | [], visited => some ([], visited)
  | (name, _) :: rest, visited =>
    match eval name visited with
    | none => none
    | some (v, visited1) =>
      match eval_all_cells eval rest visited1 with
      | none => none
      | some (cells, visited2) => some ((name, v) :: cells, visited2)

/-- The per-variable body of `calculate_variables` (lib.rs lines 199-235).
`eval` is the recursive `calculate_cell_value` call on the enclosing formula
map.  The two `parseU32` failure cases are the `.unwrap()` panics of lines 208
and 213, embedded as `none`. -/
def bind_one (ext : Externals)
    (eval : String → List String → Option (CellValue × List String))
    (exprs : List (String × String)) (var_name : String) (visited : List String) :
    Option (CellArgument × List String) :=
  if is_range_name var_name then
    let parts := split_char '_' var_name.toList
    let p0 := parts.getD 0 []
    let p1 := parts.getD 1 []
    let start_col := p0.takeWhile Char.isAlpha
    match parseU32 (p0.drop start_col.length) with
    | none => none
    | some start_row =>
      let end_col := p1.takeWhile Char.isAlpha
      match parseU32 (p1.drop end_col.length) with
      | none => none
      | some end_row =>
        let col_start := ext.columnNameToNumber (String.mk start_col)
        let col_end := ext.columnNameToNumber (String.mk end_col)
        match eval_all_cells eval exprs visited with
        | none => none
        | some (cells, visited1) =>
          some (range_binding ext cells col_start start_row col_end end_row, visited1)
  else
    match eval var_name visited with
    | none => none
    | some (v, visited1) => some (CellArgument.Value v, visited1)

/-- Folds `bind_one` over the variable names reported by the formula runtime,
collecting name-to-argument pairs (lib.rs lines 196-238). -/
def bind_vars (ext : Externals)
    (eval : String → List String → Option (CellValue × List String))
    (exprs : List (String × String)) :
    List String → List String → Option (List (String × CellArgument) × List String)
  | [], visited => some ([], visited)
  | var_name :: rest, visited =>
    match bind_one ext eval exprs var_name visited with
    | none => none
    | some (arg, visited1) =>
      match bind_vars ext eval exprs rest visited1 with
      | none => none
      | some (args, visited2) => some ((var_name, arg) :: args, visited2)

/-- `calculate_variables` (lib.rs lines 190-239): ask the formula runtime for
the referenced names and bind each one. -/
def calculate_variables (ext : Externals)
    (eval : String → List String → Option (CellValue × List String))
    (exprs : List (String × String)) (expression : String) (visited : List String) :
    Option (List (String × CellArgument) × List String) :=
  bind_vars ext eval exprs (ext.findVariables expression) visited

/-- `calculate_cell_value` (lib.rs lines 241-260): report a circular
dependency on re-entry, otherwise resolve the stored formula (marking and
unmarking the visited set around the recursive binding step), and return the
empty value when no formula exists.  `fuel` bounds the recursion depth. -/
def calculate_cell_value (ext : Externals) :
    Nat → List (String × String) → String → List String → Option (CellValue × List String)
  | 0, _, _, _ => none
  | fuel + 1, exprs, cell, visited =>
    if cell ∈ visited then
      some (CellValue.error "Circular dependency detected", visited)
    else
      match map_get cell exprs with
      | some expression =>
        let visited1 := hsInsert cell visited
        match calculate_variables ext (fun n v => calculate_cell_value ext fuel exprs n v)
            exprs expression visited1 with
        | none => none
        | some (vars, visited2) =>
          some (ext.runFormula expression vars, hsRemove cell visited2)
      | none => some (CellValue.none, visited)

/-- The shared server state: the formula map, the value map, and the sequence
of change announcements sent to the propagation worker. -/
structure ServerState where
  expressions : List (String × String)
  cell_values : List (String × CellValue)
  announcements : List String
deriving DecidableEq

/-- `Coordinator::get_cell` (lib.rs lines 27-34). -/
def get_cell (st : ServerState) (cell_name : String) : CellValue :=
  (map_get cell_name st.cell_values).getD CellValue.none

/-- `Coordinator::set_cell` (lib.rs lines 36-49): store the formula, evaluate
the cell against the updated formula map with a fresh visited set, store the
value, and announce the change. -/
def set_cell (ext : Externals) (fuel : Nat) (st : ServerState)
    (cell_name expression : String) : Option ServerState :=
  let exprs1 := insertPair cell_name expression st.expressions
  match calculate_cell_value ext fuel exprs1 cell_name [] with
  | none => none
  | some (value, _) =>
    some { expressions := exprs1
           cell_values := insertPair cell_name value st.cell_values
           announcements := st.announcements ++ [cell_name] }

/-- The loop body of `Coordinator::update_cell_values` (lib.rs lines 54-63):
walk the snapshot's keys, skip the changed cell, recompute every other cell
against the snapshot with a fresh visited set and store the result. -/
def sweep (ext : Externals) (fuel : Nat) (snapshot : List (String × String))
    (changed : String) :
    List String → List (String × CellValue) → Option (List (String × CellValue))
  | [], values => some values
  | k :: rest, values =>
    if k = changed then sweep ext fuel snapshot changed rest values
    else
      match calculate_cell_value ext fuel snapshot k [] with
      | none => none
      | some (v, _) => sweep ext fuel snapshot changed rest (insertPair k v values)

/-- `Coordinator::update_cell_values` (lib.rs lines 51-64): snapshot the
formula map and sweep it. -/
def update_cell_values (ext : Externals) (fuel : Nat) (st : ServerState)
    (changed : String) : Option ServerState :=
  match sweep ext fuel st.expressions changed (st.expressions.map Prod.fst) st.cell_values with
  | none => none
  | some cv => some { st with cell_values := cv }

/-- The formula runtime's rendering of a circular-dependency marker flowing
through a formula (lib.rs lines 116 and 119). -/
def runtime_circ_msg : String :=
  "Runtime error: Unknown value: \x22Circular dependency detected\x22 (line 1, position 1)"

/-- The formula runtime's scope-misuse message (lib.rs line 122). -/
def this_scope_msg : String :=
  "\x27this\x27 can only be used in functions (line 1, position 7)"

/-- The reply mapping of the `get` arm of `handle_connection` (lib.rs lines
115-129), with the match arms in source order grouped by constructor. -/
def get_reply (cell_name : String) (cell_value : CellValue) : Reply :=
  match cell_value with
  | CellValue.str e =>
    if e = runtime_circ_msg then Reply.Error "Circular dependency"
    else if e = this_scope_msg then Reply.Error "this err"
    else if e = "Circular dependency detected" then Reply.Error "Circular dependency"
    else Reply.Value cell_name (CellValue.str e)
  | CellValue.error e =>
    if e = runtime_circ_msg then Reply.Error "Circular dependency"
    else Reply.Value cell_name (CellValue.error e)
  | v => Reply.Value cell_name v

/-- One iteration of the `handle_connection` command loop (lib.rs lines
103-148) on an already-received message: the resulting state and the reply
written back, `none` in the reply slot when `set` succeeds (the source writes
nothing on that path). -/
def handle_message (ext : Externals) (fuel : Nat) (st : ServerState) (msg : String) :
    Option (ServerState × Option Reply) :=
  let t := trim_ws msg
  let parts := splitn2 t
  if parts.1 = "get" then
    match parts.2 with
    | none => some (st, some (Reply.Error "Invalid get command"))
    | some cell_name => some (st, some (get_reply cell_name (get_cell st cell_name)))
  else if parts.1 = "set" then
    match parts.2 with
    | none => some (st, some (Reply.Error "Invalid set command"))
    | some rest =>
      let inner := splitn2 rest
      let expression := inner.2.getD ""
      if expression = "" then some (st, some (Reply.Error "Invalid command"))
      else (set_cell ext fuel st inner.1 expression).map (fun st2 => (st2, none))
  else some (st, some (Reply.Error "Invalid command"))

/-- The claim's malformed-command taxonomy expressed on the wire parse the
source performs: a `get` with no argument, a `set` with no argument or with
empty formula text, or an unrecognized command word. -/
def malformed_command (t : String) : Bool :=
  let parts := splitn2 t
  if parts.1 = "get" then parts.2.isNone
  else if parts.1 = "set" then
    match parts.2 with
    | none => true
    | some rest => ((splitn2 rest).2.getD "") = ""
  else true

/-- Concrete external collaborators used to exercise the theorems on closed
inputs: a formula runtime that reports no variables and echoes the formula
text, and a two-column coordinate mapping. -/
def ext0 : Externals :=
  { findVariables := fun _ => []
    runFormula := fun e _ => CellValue.str e
    columnNameToNumber := fun _ => 0
    columnNumberToName := fun n => if n = 0 then "A" else "B" }

/-- Concrete external collaborators whose variable extraction reports the
underscore name `x_y`, as the formula runtime does for the formula `x_y`. -/
def ext_c2 : Externals :=
  { findVariables := fun _ => ["x_y"]
    runFormula := fun _ _ => CellValue.none
    columnNameToNumber := fun _ => 0
    columnNumberToName := fun _ => "A" }

/-- A resolver stub used to exercise the scalar-binding theorem on closed
inputs. -/
def evalW : String → List String → Option (CellValue × List String) :=
  fun _ v => some (CellValue.none, v)

/-- The empty server state. -/
def st0 : ServerState :=
  { expressions := [], cell_values := [], announcements := [] }

/-- The server state after `set A1 5` from the empty state, under `ext0`. -/
def st1 : ServerState :=
  { expressions := [("A1", "5")]
    cell_values := [("A1", CellValue.str "5")]
    announcements := ["A1"] }

/-- A two-cell server state used to exercise the sweep theorem. -/
def st2 : ServerState :=
  { expressions := [("A1", "5"), ("B1", "7")]
    cell_values := []
    announcements := [] }

/-! Helper lemmas about the association-list map operations. -/

theorem map_get_insertPair_self {α : Type} (k : String) (v : α)
    (m : List (String × α)) : map_get k (insertPair k v m) = some v := by
  induction m with
  | nil => simp [insertPair, map_get]
  | cons p rest ih =>
    obtain ⟨k', v'⟩ := p
    simp only [insertPair]
    split
    · simp [map_get]
    · rename_i hne
      simp only [map_get]
      rw [if_neg hne]
      exact ih

theorem map_get_insertPair_ne {α : Type} {c k : String} (hne : c ≠ k) (v : α)
    (m : List (String × α)) : map_get c (insertPair k v m) = map_get c m := by
  induction m with
  | nil =>
    simp only [insertPair, map_get]
    rw [if_neg (fun h => hne h.symm)]
  | cons p rest ih =>
    obtain ⟨k', v'⟩ := p
    simp only [insertPair]
    split
    · rename_i hEq
      subst hEq
      simp only [map_get]
      rw [if_neg (fun h => hne h.symm), if_neg (fun h => hne h.symm)]
    · simp only [map_get]
      split
      · rfl
      · exact ih

theorem insertPair_idem {α : Type} (k : String) (v : α) (m : List (String × α)) :
    insertPair k v (insertPair k v m) = insertPair k v m := by
  induction m with
  | nil => simp [insertPair]
  | cons p rest ih =>
    obtain ⟨k', v'⟩ := p
    simp only [insertPair]
    split
    · simp [insertPair]
    · rename_i hne
      simp only [insertPair]
      rw [if_neg hne]
      rw [ih]

theorem hsInsert_not_mem {x : String} {s : List String} (h : x ∉ s) :
    hsInsert x s = x :: s := by
  simp [hsInsert, h]

/-! Visited-set preservation: every evaluation function hands back the visited
set it received whenever it returns at all. -/

theorem eval_all_cells_snd
    {eval : String → List String → Option (CellValue × List String)}
    (heval : ∀ n v r, eval n v = some r → r.2 = v) :
    ∀ (pending : List (String × String)) (visited : List String) r,
      eval_all_cells eval pending visited = some r → r.2 = visited := by
  intro pending
  induction pending with
  | nil =>
    intro visited r h
    simp only [eval_all_cells] at h
    cases h
    rfl
  | cons p rest ih =>
    obtain ⟨name, e⟩ := p
    intro visited r h
    simp only [eval_all_cells] at h
    split at h
    · cases h
    · rename_i v visited1 he
      split at h
      · cases h
      · rename_i cells visited2 he2
        cases h
        have h1 := heval name visited (v, visited1) he
        have h2 := ih visited1 (cells, visited2) he2
        simp only at h1 h2
        exact h2.trans h1

theorem bind_one_snd {ext : Externals}
    {eval : String → List String → Option (CellValue × List String)}
    {exprs : List (String × String)}
    (heval : ∀ n v r, eval n v = some r → r.2 = v) :
    ∀ (var_name : String) (visited : List String) r,
      bind_one ext eval exprs var_name visited = some r → r.2 = visited := by
  intro var_name visited r h
  simp only [bind_one] at h
  split at h
  · split at h
    · cases h
    · split at h
      · cases h
      · split at h
        · cases h
        · rename_i cells visited1 hcells
          cases h
          exact eval_all_cells_snd heval exprs visited (cells, visited1) hcells
  · split at h
    · cases h
    · rename_i v visited1 hev
      cases h
      exact heval var_name visited (v, visited1) hev

theorem bind_vars_snd {ext : Externals}
    {eval : String → List String → Option (CellValue × List String)}
    {exprs : List (String × String)}
    (heval : ∀ n v r, eval n v = some r → r.2 = v) :
    ∀ (vars : List String) (visited : List String) r,
      bind_vars ext eval exprs vars visited = some r → r.2 = visited := by
  intro vars
  induction vars with
  | nil =>
    intro visited r h
    simp only [bind_vars] at h
    cases h
    rfl
  | cons var rest ih =>
    intro visited r h
    simp only [bind_vars] at h
    split at h
    · cases h
    · rename_i arg visited1 hb
      split at h
      · cases h
      · rename_i args visited2 hb2
        cases h
        have h1 := bind_one_snd heval var visited (arg, visited1) hb
        have h2 := ih visited1 (args, visited2) hb2
        simp only at h1 h2
        exact h2.trans h1

theorem calculate_variables_snd {ext : Externals}
    {eval : String → List String → Option (CellValue × List String)}
    {exprs : List (String × String)}
    (heval : ∀ n v r, eval n v = some r → r.2 = v) :
    ∀ (expression : String) (visited : List String) r,
      calculate_variables ext eval exprs expression visited = some r → r.2 = visited := by
  intro expression visited r h
  exact bind_vars_snd heval (ext.findVariables expression) visited r h

theorem calculate_cell_value_snd (ext : Externals) :
    ∀ (fuel : Nat) (exprs : List (String × String)) (cell : String)
      (visited : List String) r,
      calculate_cell_value ext fuel exprs cell visited = some r → r.2 = visited := by
  intro fuel
  induction fuel with
  | zero =>
    intro exprs cell visited r h
    simp only [calculate_cell_value] at h
    cases h
  | succ fuel ih =>
    intro exprs cell visited r h
    simp only [calculate_cell_value] at h
    split at h
    · cases h
      rfl
    · rename_i hmem
      split at h
      · rename_i expression hexp
        split at h
        · cases h
        · rename_i vars visited2 hvars
          cases h
          have h2 : visited2 = hsInsert cell visited :=
            calculate_variables_snd (fun n v r hr => ih exprs n v r hr)
              expression (hsInsert cell visited) (vars, visited2) hvars
          show hsRemove cell visited2 = visited
          rw [h2, hsInsert_not_mem hmem]
          simp [hsRemove]
      · cases h
        rfl

/-- Content of the temporary value map: every key of the formula map is bound
to its evaluation at the visited set the construction started from, and no
other name is bound. -/
theorem eval_all_cells_lookup
    {eval : String → List String → Option (CellValue × List String)}
    (heval : ∀ n v r, eval n v = some r → r.2 = v) :
    ∀ (pending : List (String × String)) (visited : List String)
      (cells : List (String × CellValue)) (v' : List String),
      (pending.map Prod.fst).Nodup →
      eval_all_cells eval pending visited = some (cells, v') →
      (∀ nm, nm ∉ pending.map Prod.fst → map_get nm cells = none) ∧
      (∀ nm, nm ∈ pending.map Prod.fst →
        ∃ val, eval nm visited = some (val, visited) ∧ map_get nm cells = some val) := by
  intro pending
  induction pending with
  | nil =>
    intro visited cells v' hnd h
    simp only [eval_all_cells] at h
    cases h
    refine ⟨fun nm _ => rfl, fun nm hmem => ?_⟩
    simp at hmem
  | cons p rest ih =>
    obtain ⟨name, e⟩ := p
    intro visited cells v' hnd h
    simp only [eval_all_cells] at h
    split at h
    · cases h
    · rename_i v visited1 he
      split at h
      · cases h
      · rename_i cells2 visited2 he2
        cases h
        have hv1 : visited1 = visited := heval name visited (v, visited1) he
        rw [hv1] at he he2
        simp only [List.map_cons, List.nodup_cons] at hnd
        obtain ⟨hname, hndrest⟩ := hnd
        obtain ⟨ihA, ihB⟩ := ih visited cells2 _ hndrest he2
        constructor
        · intro nm hnm
          simp only [List.map_cons, List.mem_cons, not_or] at hnm
          obtain ⟨hne, hnin⟩ := hnm
          simp only [map_get]
          rw [if_neg (fun hEq => hne hEq.symm)]
          exact ihA nm hnin
        · intro nm hnm
          simp only [List.map_cons, List.mem_cons] at hnm
          rcases hnm with rfl | hin
          · exact ⟨v, he, by simp [map_get]⟩
          · have hne : nm ≠ name := fun hEq => hname (hEq ▸ hin)
            obtain ⟨val, hval, hmg⟩ := ihB nm hin
            refine ⟨val, hval, ?_⟩
            simp only [map_get]
            rw [if_neg (fun hEq => hne hEq.symm)]
            exact hmg

/-- Effect of the sweep loop on the value map: the changed cell's entry is
untouched, every other key of the snapshot is overwritten with its fresh
evaluation, and names outside the key list keep their entries. -/
theorem sweep_spec (ext : Externals) (fuel : Nat) (snapshot : List (String × String))
    (changed : String) :
    ∀ (keys : List String) (values values' : List (String × CellValue)),
      keys.Nodup →
      sweep ext fuel snapshot changed keys values = some values' →
      (map_get changed values' = map_get changed values) ∧
      (∀ c ∈ keys, c ≠ changed →
        ∃ v w, calculate_cell_value ext fuel snapshot c [] = some (v, w) ∧
          map_get c values' = some v) ∧
      (∀ c, c ∉ keys → map_get c values' = map_get c values) := by
  intro keys
  induction keys with
  | nil =>
    intro values values' hnd h
    simp only [sweep] at h
    cases h
    exact ⟨rfl, by simp, fun c _ => rfl⟩
  | cons k rest ih =>
    intro values values' hnd h
    simp only [sweep] at h
    simp only [List.nodup_cons] at hnd
    obtain ⟨hk, hndrest⟩ := hnd
    split at h
    · rename_i hkc
      obtain ⟨c1, c2, c3⟩ := ih values values' hndrest h
      refine ⟨c1, ?_, ?_⟩
      · intro c hc hne
        rcases List.mem_cons.mp hc with rfl | hin
        · exact absurd hkc hne
        · exact c2 c hin hne
      · intro c hcnot
        exact c3 c (fun hin => hcnot (List.mem_cons_of_mem _ hin))
    · rename_i hkc
      split at h
      · cases h
      · rename_i v w hccv
        obtain ⟨c1, c2, c3⟩ := ih (insertPair k v values) values' hndrest h
        refine ⟨?_, ?_, ?_⟩
        · rw [c1, map_get_insertPair_ne (fun hEq => hkc hEq.symm)]
        · intro c hc hne
          rcases List.mem_cons.mp hc with rfl | hin
          · exact ⟨v, w, hccv, by rw [c3 c hk, map_get_insertPair_self]⟩
          · exact c2 c hin hne
        · intro c hcnot
          simp only [List.mem_cons, not_or] at hcnot
          obtain ⟨hck, hcrest⟩ := hcnot
          rw [c3 c hcrest, map_get_insertPair_ne hck]

/-- The source's range-name condition agrees with the claim's reading:
underscore present, and not both "sum" and "sleep" present. -/
theorem is_range_name_eq_spec (var_name : String) :
    is_range_name var_name = is_range_name_spec var_name := by
  unfold is_range_name is_range_name_spec
  cases h1 : var_name.toList.contains '_' <;>
    cases h2 : has_sub_seq sum_chars var_name.toList <;>
      cases h3 : has_sub_seq sleep_chars var_name.toList <;> rfl

/-- C1 (counterexample): a stored Value of kind Error carrying the
circular-dependency message "Circular dependency detected" — the kind the
Evaluator constructs — is NOT translated by the `get` reply mapping: it passes
through as a value reply instead of the short 'Circular dependency' error
reply the claim requires. -/
theorem claim_c1_error_marker_passes_through :
    get_reply "A1" (CellValue.error "Circular dependency detected") =
      Reply.Value "A1" (CellValue.error "Circular dependency detected") ∧
    get_reply "A1" (CellValue.error "Circular dependency detected") ≠
      Reply.Error "Circular dependency" := by
  constructor
  · decide
  · decide

/-- C1 (amended): the `get` reply mapping translates a String or Error Value
carrying the formula runtime's long circular-dependency message, and a String
Value carrying the short message, to the short stable 'Circular dependency'
error reply; but an Error Value carrying the short message — the kind the
Evaluator constructs — passes through as a value reply. -/
theorem claim_c1_amended_sentinel_mapping :
    ∀ cell_name : String,
      get_reply cell_name (CellValue.str runtime_circ_msg) =
        Reply.Error "Circular dependency" ∧
      get_reply cell_name (CellValue.error runtime_circ_msg) =
        Reply.Error "Circular dependency" ∧
      get_reply cell_name (CellValue.str "Circular dependency detected") =
        Reply.Error "Circular dependency" ∧
      get_reply cell_name (CellValue.error "Circular dependency detected") =
        Reply.Value cell_name (CellValue.error "Circular dependency detected") := by
  intro cell_name
  refine ⟨?_, ?_, ?_, ?_⟩
  · simp [get_reply]
  · simp [get_reply]
  · simp only [get_reply]
    rw [if_neg (by decide), if_neg (by decide)]
    simp
  · simp only [get_reply]
    rw [if_neg (by decide)]

/-- C2 (code bug): evaluation is not total.  With a formula whose reported
variable list contains the underscore name `x_y` (whose parts are not
well-formed cell coordinates), resolution reaches the
`parse::<u32>().unwrap()` of lib.rs line 208 with the empty string and the
thread panics; in the embedding the evaluation aborts with `none` instead of
producing a Value. -/
theorem claim_c2_evaluation_aborts_on_malformed_range :
    calculate_cell_value ext_c2 2 [("A1", "x_y")] "A1" [] = none := by
  decide

/-- C3: a range whose endpoints share a column is bound as the 1-D sequence
of the rows of that column; one whose endpoints share a row (columns
differing) as the 1-D sequence of the columns at that row; any other range as
a 2-D sequence with rows outer and columns inner; all spans are the inclusive
`a..=b` intervals of the endpoints. -/
theorem claim_c3_range_binding_shape :
    ∀ (ext : Externals) (cells : List (String × CellValue))
      (col_start row_start col_end row_end : Nat),
      (col_start = col_end ∨ row_start = row_end →
        ∃ l, range_binding ext cells col_start row_start col_end row_end =
            CellArgument.Vector l ∧
          (col_start = col_end →
            l.length = row_end + 1 - row_start ∧
            ∀ i (h : i < l.length),
              l.get ⟨i, h⟩ = get_cell_value ext cells col_start (row_start + i)) ∧
          (col_start ≠ col_end →
            l.length = col_end + 1 - col_start ∧
            ∀ i (h : i < l.length),
              l.get ⟨i, h⟩ = get_cell_value ext cells (col_start + i) row_start)) ∧
      (col_start ≠ col_end ∧ row_start ≠ row_end →
        ∃ m, range_binding ext cells col_start row_start col_end row_end =
            CellArgument.Matrix m ∧
          m.length = row_end + 1 - row_start ∧
          ∀ i (h : i < m.length),
            (m.get ⟨i, h⟩).length = col_end + 1 - col_start ∧
            ∀ j (h2 : j < (m.get ⟨i, h⟩).length),
              (m.get ⟨i, h⟩).get ⟨j, h2⟩ =
                get_cell_value ext cells (col_start + j) (row_start + i)) := by
  intro ext cells cs rs ce re
  constructor
  · intro hvec
    refine ⟨get_vector_value ext cells cs rs ce re, ?_, ?_, ?_⟩
    · simp only [range_binding]
      rw [if_pos hvec]
    · intro hce
      unfold get_vector_value
      rw [if_pos hce]
      refine ⟨by simp [rangeIncl], ?_⟩
      intro i h
      simp [rangeIncl, List.get_eq_getElem, List.getElem_map, List.getElem_range'_1]
    · intro hce
      unfold get_vector_value
      rw [if_neg hce]
      refine ⟨by simp [rangeIncl], ?_⟩
      intro i h
      simp [rangeIncl, List.get_eq_getElem, List.getElem_map, List.getElem_range'_1]
  · rintro ⟨hce, hre⟩
    refine ⟨get_matrix_value ext cells cs rs ce re, ?_, ?_, ?_⟩
    · simp only [range_binding]
      rw [if_neg (not_or.mpr ⟨hce, hre⟩)]
    · simp [get_matrix_value, rangeIncl]
    · intro i h
      constructor
      · simp [get_matrix_value, rangeIncl, List.get_eq_getElem, List.getElem_map,
          List.getElem_range'_1]
      · intro j h2
        simp [get_matrix_value, rangeIncl, List.get_eq_getElem, List.getElem_map,
          List.getElem_range'_1]

/-- C3 witness: a one-column range `(0,1)..(0,3)` yields a vector of three
values, and a genuinely rectangular range `(0,1)..(1,3)` yields a matrix of
three rows. -/
theorem claim_c3_witness :
    (∃ l, range_binding ext0 [] 0 1 0 3 = CellArgument.Vector l ∧ l.length = 3) ∧
    (∃ m, range_binding ext0 [] 0 1 1 3 = CellArgument.Matrix m ∧ m.length = 3) := by
  constructor
  · obtain ⟨l, hl, hcol, _⟩ := (claim_c3_range_binding_shape ext0 [] 0 1 0 3).1 (Or.inl rfl)
    obtain ⟨hlen, _⟩ := hcol rfl
    exact ⟨l, hl, hlen⟩
  · obtain ⟨m, hm, hlen, _⟩ :=
      (claim_c3_range_binding_shape ext0 [] 0 1 1 3).2 ⟨by decide, by decide⟩
    exact ⟨m, hm, hlen⟩

/-- C4: resolution of a cell already in the visited set returns the
circular-dependency Error Value (leaving the set unchanged), and resolution of
a cell that is neither visited nor present in the formula map returns the
empty Value without marking it visited. -/
theorem claim_c4_cycle_and_missing_formula :
    ∀ (ext : Externals) (fuel : Nat) (exprs : List (String × String))
      (cell : String) (visited : List String),
      (cell ∈ visited →
        calculate_cell_value ext (fuel + 1) exprs cell visited =
          some (CellValue.error "Circular dependency detected", visited)) ∧
      (cell ∉ visited → map_get cell exprs = none →
        calculate_cell_value ext (fuel + 1) exprs cell visited =
          some (CellValue.none, visited)) := by
  intro ext fuel exprs cell visited
  constructor
  · intro hmem
    simp only [calculate_cell_value]
    rw [if_pos hmem]
  · intro hmem hexp
    simp only [calculate_cell_value]
    rw [if_neg hmem, hexp]

/-- C4 witness: a visited cell reports the cycle, and an unvisited cell with
no formula yields the empty value. -/
theorem claim_c4_witness :
    calculate_cell_value ext0 1 [] "A1" ["A1"] =
      some (CellValue.error "Circular dependency detected", ["A1"]) ∧
    calculate_cell_value ext0 1 [] "B2" [] = some (CellValue.none, []) := by
  constructor
  · exact (claim_c4_cycle_and_missing_formula ext0 0 [] "A1" ["A1"]).1 (by decide)
  · exact (claim_c4_cycle_and_missing_formula ext0 0 [] "B2" []).2 (by decide) rfl

/-- C5: the temporary value map built for a range binding is equivalent to
per-element recursive resolution: every cell present in the formula map is
bound to `calculate_cell_value` of that cell at the same visited set the
enclosing evaluation holds, and every absent cell reads as the empty Value. -/
theorem claim_c5_temp_map_refines_recursive_resolution :
    ∀ (ext : Externals) (fuel : Nat) (exprs : List (String × String))
      (visited : List String) (cells : List (String × CellValue)) (v' : List String),
      (exprs.map Prod.fst).Nodup →
      eval_all_cells (fun n v => calculate_cell_value ext fuel exprs n v) exprs visited =
        some (cells, v') →
      ∀ col row,
        (ext.columnNumberToName col ++ toString row ∈ exprs.map Prod.fst →
          ∃ val,
            calculate_cell_value ext fuel exprs
              (ext.columnNumberToName col ++ toString row) visited = some (val, visited) ∧
            get_cell_value ext cells col row = val) ∧
        (ext.columnNumberToName col ++ toString row ∉ exprs.map Prod.fst →
          get_cell_value ext cells col row = CellValue.none) := by
  intro ext fuel exprs visited cells v' hnd h col row
  have heval : ∀ n v r, calculate_cell_value ext fuel exprs n v = some r → r.2 = v :=
    fun n v r hr => calculate_cell_value_snd ext fuel exprs n v r hr
  obtain ⟨hA, hB⟩ := eval_all_cells_lookup heval exprs visited cells v' hnd h
  constructor
  · intro hmem
    obtain ⟨val, hval, hmg⟩ := hB _ hmem
    exact ⟨val, hval, by simp [get_cell_value, hmg]⟩
  · intro hmem
    simp [get_cell_value, hA _ hmem]

/-- C5 witness: over the one-formula map `A1 ↦ 5`, the temporary map agrees
with the recursive resolution of `A1` at the same visited set, and the absent
cell `B2` reads as the empty value. -/
theorem claim_c5_witness :
    (∃ val,
      calculate_cell_value ext0 1 [("A1", "5")] "A1" [] = some (val, []) ∧
      get_cell_value ext0 [("A1", CellValue.str "5")] 0 1 = val) ∧
    get_cell_value ext0 [("A1", CellValue.str "5")] 1 2 = CellValue.none := by
  have h := claim_c5_temp_map_refines_recursive_resolution ext0 1 [("A1", "5")] []
    [("A1", CellValue.str "5")] [] (by decide) (by decide)
  exact ⟨(h 0 1).1 (by decide), (h 1 2).2 (by decide)⟩

/-- C6: a variable name is treated as a range reference exactly when it
contains an underscore and does not contain both the substring "sum" and the
substring "sleep"; any other name is bound as a single scalar resolution of
that name. -/
theorem claim_c6_range_name_condition :
    (∀ var_name, is_range_name var_name = is_range_name_spec var_name) ∧
    (∀ (ext : Externals) (eval : String → List String → Option (CellValue × List String))
      (exprs : List (String × String)) (var_name : String) (visited : List String),
      is_range_name_spec var_name = false →
      bind_one ext eval exprs var_name visited =
        (eval var_name visited).map (fun r => (CellArgument.Value r.1, r.2))) := by
  constructor
  · exact is_range_name_eq_spec
  · intro ext eval exprs var_name visited hspec
    have hcode : is_range_name var_name = false := by
      rw [is_range_name_eq_spec, hspec]
    simp only [bind_one, hcode, Bool.false_eq_true, if_false]
    cases he : eval var_name visited with
    | none => simp
    | some r =>
      obtain ⟨v, visited1⟩ := r
      simp

/-- C6 witness: the name `sum_sleep` contains an underscore but both
substrings, so it is bound as a scalar resolution. -/
theorem claim_c6_witness :
    bind_one ext0 evalW [] "sum_sleep" [] =
      (evalW "sum_sleep" []).map (fun r => (CellArgument.Value r.1, r.2)) :=
  claim_c6_range_name_condition.2 ext0 evalW [] "sum_sleep" [] (by decide)

/-- C7: a command line the handler's parse classifies as malformed (a `get`
with no argument, a `set` with no argument or with empty formula text, or an
unrecognized command word) draws an invalid-command error reply, and the
server state — formula map, value map and announcements alike — is returned
unchanged. -/
theorem claim_c7_malformed_command_no_mutation :
    ∀ (ext : Externals) (fuel : Nat) (st : ServerState) (msg : String),
      malformed_command (trim_ws msg) = true →
      ∃ m, handle_message ext fuel st msg = some (st, some (Reply.Error m)) ∧
        (m = "Invalid get command" ∨ m = "Invalid set command" ∨ m = "Invalid command") := by
  intro ext fuel st msg hmal
  simp only [malformed_command] at hmal
  simp only [handle_message]
  by_cases hget : (splitn2 (trim_ws msg)).1 = "get"
  · rw [if_pos hget] at hmal ⊢
    cases h2 : (splitn2 (trim_ws msg)).2 with
    | none => exact ⟨"Invalid get command", rfl, Or.inl rfl⟩
    | some cell_name =>
      rw [h2] at hmal
      simp at hmal
  · rw [if_neg hget] at hmal ⊢
    by_cases hset : (splitn2 (trim_ws msg)).1 = "set"
    · rw [if_pos hset] at hmal ⊢
      cases h2 : (splitn2 (trim_ws msg)).2 with
      | none => exact ⟨"Invalid set command", rfl, Or.inr (Or.inl rfl)⟩
      | some rest =>
        rw [h2] at hmal
        have hexp : ((splitn2 rest).2.getD "") = "" := by
          simpa using hmal
        refine ⟨"Invalid command", ?_, Or.inr (Or.inr rfl)⟩
        simp only [h2]
        rw [if_pos hexp]
    · rw [if_neg hset] at hmal ⊢
      exact ⟨"Invalid command", rfl, Or.inr (Or.inr rfl)⟩

/-- C7 witness: the unrecognized command word `ping` draws an invalid-command
error and leaves the empty state unchanged. -/
theorem claim_c7_witness :
    ∃ m, handle_message ext0 1 st0 "ping" = some (st0, some (Reply.Error m)) ∧
      (m = "Invalid get command" ∨ m = "Invalid set command" ∨ m = "Invalid command") :=
  claim_c7_malformed_command_no_mutation ext0 1 st0 "ping" (by decide)

/-- C8: a successful sweep for `changed` leaves the formula map and the
announcements alone, leaves the stored Value of `changed` itself untouched,
overwrites every other key of the formula-map snapshot with its fresh
re-evaluation (fresh empty visited set, against the snapshot), and leaves
cells outside the snapshot untouched. -/
theorem claim_c8_sweep_recomputes_others :
    ∀ (ext : Externals) (fuel : Nat) (st : ServerState) (changed : String)
      (st' : ServerState),
      (st.expressions.map Prod.fst).Nodup →
      update_cell_values ext fuel st changed = some st' →
      st'.expressions = st.expressions ∧
      st'.announcements = st.announcements ∧
      map_get changed st'.cell_values = map_get changed st.cell_values ∧
      (∀ c ∈ st.expressions.map Prod.fst, c ≠ changed →
        ∃ v w, calculate_cell_value ext fuel st.expressions c [] = some (v, w) ∧
          map_get c st'.cell_values = some v) ∧
      (∀ c, c ∉ st.expressions.map Prod.fst →
        map_get c st'.cell_values = map_get c st.cell_values) := by
  intro ext fuel st changed st' hnd h
  simp only [update_cell_values] at h
  split at h
  · cases h
  · rename_i cv hsw
    cases h
    obtain ⟨c1, c2, c3⟩ := sweep_spec ext fuel st.expressions changed
      (st.expressions.map Prod.fst) st.cell_values cv hnd hsw
    exact ⟨rfl, rfl, c1, c2, c3⟩

/-- C8 witness: sweeping the two-formula state for `B1` recomputes `A1` and
leaves the (absent) stored value of `B1` alone. -/
theorem claim_c8_witness :
    ∃ st', update_cell_values ext0 1 st2 "B1" = some st' ∧
      map_get "A1" st'.cell_values = some (CellValue.str "5") ∧
      map_get "B1" st'.cell_values = map_get "B1" st2.cell_values := by
  have hupd : update_cell_values ext0 1 st2 "B1" =
      some { st2 with cell_values := [("A1", CellValue.str "5")] } := by decide
  obtain ⟨e1, e2, c1, c2, c3⟩ :=
    claim_c8_sweep_recomputes_others ext0 1 st2 "B1" _ (by decide) hupd
  obtain ⟨v, w, hv, hmg⟩ := c2 "A1" (by decide) (by decide)
  have hv2 : calculate_cell_value ext0 1 st2.expressions "A1" [] =
      some (CellValue.str "5", []) := by decide
  have hveq : v = CellValue.str "5" := by
    have h12 := hv.symm.trans hv2
    cases h12
    rfl
  rw [hveq] at hmg
  exact ⟨_, hupd, hmg, c1⟩

/-- C9: repeating an identical `set c f` yields the same formula map and the
same value map as issuing it once, and appends one further change
announcement. -/
theorem claim_c9_set_idempotent :
    ∀ (ext : Externals) (fuel : Nat) (st : ServerState) (c f : String)
      (st1' : ServerState),
      set_cell ext fuel st c f = some st1' →
      ∃ st2', set_cell ext fuel st1' c f = some st2' ∧
        st2'.expressions = st1'.expressions ∧
        st2'.cell_values = st1'.cell_values ∧
        st2'.announcements = st1'.announcements ++ [c] := by
  intro ext fuel st c f st1' h
  simp only [set_cell] at h
  split at h
  · cases h
  · rename_i v w hccv
    cases h
    have hexprs : insertPair c f (insertPair c f st.expressions) =
        insertPair c f st.expressions :=
      insertPair_idem c f st.expressions
    refine ⟨{ expressions := insertPair c f st.expressions
              cell_values := insertPair c v (insertPair c v st.cell_values)
              announcements := (st.announcements ++ [c]) ++ [c] }, ?_, ?_, ?_, ?_⟩
    · simp only [set_cell]
      rw [hexprs, hccv]
    · exact hexprs.symm ▸ rfl
    · exact insertPair_idem c v st.cell_values
    · rfl

/-- C9 witness: repeating `set A1 5` from the state it produced yields the
same maps and one further announcement. -/
theorem claim_c9_witness :
    ∃ st2', set_cell ext0 1 st1 "A1" "5" = some st2' ∧
      st2'.expressions = st1.expressions ∧
      st2'.cell_values = st1.cell_values ∧
      st2'.announcements = st1.announcements ++ ["A1"] := by
  have h : set_cell ext0 1 st0 "A1" "5" = some st1 := by decide
  exact claim_c9_set_idempotent ext0 1 st0 "A1" "5" st1 h

/-- C10: whenever resolution returns, the visited set it hands back is exactly
the one it received: the entry inserted on the way in is removed before
return, and the cycle and no-formula paths never touch the set. -/
theorem claim_c10_visited_restored :
    ∀ (ext : Externals) (fuel : Nat) (exprs : List (String × String))
      (cell : String) (visited : List String) (val : CellValue) (v' : List String),
      calculate_cell_value ext fuel exprs cell visited = some (val, v') →
      v' = visited :=
  fun ext fuel exprs cell visited val v' h =>
    calculate_cell_value_snd ext fuel exprs cell visited (val, v') h

/-- C10 witness: resolving `A1` over the one-formula map from the empty
visited set returns with the visited set empty again. -/
theorem claim_c10_witness :
    ∃ r, calculate_cell_value ext0 1 [("A1", "5")] "A1" [] = some r ∧
      r.2 = ([] : List String) := by
  have h : calculate_cell_value ext0 1 [("A1", "5")] "A1" [] =
      some (CellValue.str "5", []) := by decide
  exact ⟨(CellValue.str "5", []), h,
    claim_c10_visited_restored ext0 1 [("A1", "5")] "A1" [] (CellValue.str "5") [] h⟩

end Spreadsheet
